import Mathlib

namespace DocAnalyser

/-!
Shallow embedding of the documentation-normalization pipeline of
`src/utils/filter.py`.  Python strings are modelled as `List Char`; each
`re.sub(pattern, repl, s)` call is modelled by an executable function that
performs leftmost, non-overlapping substitution with Python's backtracking
match semantics (greedy/lazy stars, left-biased alternation).  Character
classes `\w`, `\s`, `\d`, `str.lower`, `str.isalpha`, `str.isnumeric` are
modelled on their ASCII fragment (all inputs evaluated here are ASCII).
-/

/-- Python regex class `\s` (ASCII part): space, tab, newline, carriage
return, vertical tab, form feed. -/
def isPySpace (c : Char) : Bool :=
  c = ' ' || c = '\t' || c = '\n' || c = '\r' || c = '\x0b' || c = '\x0c'

/-- Python regex class `\w` (ASCII part): letters, digits and underscore. -/
def isPyWordChar (c : Char) : Bool := c.isAlphanum || c = '_'

/-- Python `str.replace(pat, rep)`: leftmost, non-overlapping replacement of
every occurrence.  Also models `re.sub` for a literal (meta-character-free)
pattern.  The fuel argument only bounds the recursion; `length + 1` fuel is
always enough because every step consumes at least one input character
(patterns used in the source are never empty). -/
def pyReplaceGo (pat rep : List Char) : Nat → List Char → List Char
  | 0, s => s
  | _ + 1, [] => []
  | f + 1, c :: cs =>
    if pat.isPrefixOf (c :: cs) ∧ pat ≠ [] then
      rep ++ pyReplaceGo pat rep f ((c :: cs).drop pat.length)
    else
      c :: pyReplaceGo pat rep f cs

/-- Python `str.replace` on `List Char`. -/
def pyReplace (pat rep s : List Char) : List Char :=
  pyReplaceGo pat rep (s.length + 1) s

/-- Python `s.find(pat)` / the index of `s.index(pat)`: first position whose
suffix starts with `pat`, `none` when `pat` does not occur (`pat in s` is
`(strFind pat s).isSome`). -/
def strFind (pat : List Char) : List Char → Option Nat
  | [] => if pat.isPrefixOf ([] : List Char) then some 0 else none
  | c :: cs =>
    if pat.isPrefixOf (c :: cs) then some 0
    else (strFind pat cs).map (fun n => n + 1)

/-! ## A small backtracking regex engine (Python `re` semantics)

Used for the passes whose patterns need real backtracking.  `matchK` is a
continuation-passing matcher: alternation is left-biased, `star true` is
greedy, `star false` is lazy, exactly as in Python's `re`.  The fuel
argument makes the recursion structural; every star iteration is forced to
consume input (the `length` guard), so `(reSize r + 1) * (length s + 2)`
fuel can never run out on the patterns below. -/

inductive RE where
  | eps : RE
  | cls : (Char → Bool) → RE
  | cat : RE → RE → RE
  | alt : RE → RE → RE
  | star : Bool → RE → RE

/-- Structural size of a regex, used to compute a sufficient fuel bound. -/
def reSize : RE → Nat
  | .eps => 1
  | .cls _ => 1
  | .cat a b => reSize a + reSize b + 1
  | .alt a b => reSize a + reSize b + 1
  | .star _ a => reSize a + 1

/-- Single literal character. -/
def reChar (c : Char) : RE := .cls (fun d => d = c)

/-- Literal character sequence. -/
def reStr : List Char → RE
  | [] => .eps
  | c :: cs => .cat (reChar c) (reStr cs)

/-- Regex `r+` (greedy). -/
def rePlus (r : RE) : RE := .cat r (.star true r)

/-- Regex `r?` (greedy option: presence preferred). -/
def reOpt (r : RE) : RE := .alt r .eps

/-- Backtracking matcher: `matchK fuel r s k` tries to match `r` at the head
of `s` and calls the continuation `k` with the remaining suffix, exploring
alternatives in Python preference order. -/
def matchK : Nat → RE → List Char → (List Char → Option (List Char)) → Option (List Char)
  | 0, _, _, _ => none
  | _ + 1, .eps, s, k => k s
  | _ + 1, .cls p, s, k =>
    match s with
    | [] => none
    | c :: cs => if p c then k cs else none
  | f + 1, .cat a b, s, k => matchK f a s (fun s1 => matchK f b s1 k)
  | f + 1, .alt a b, s, k => (matchK f a s k).orElse (fun _ => matchK f b s k)
  | f + 1, .star g a, s, k =>
    if g then
      (matchK f a s (fun s1 =>
        if s1.length = s.length then k s1 else matchK f (.star g a) s1 k)).orElse
        (fun _ => k s)
    else
      (k s).orElse (fun _ =>
        matchK f a s (fun s1 =>
          if s1.length = s.length then none else matchK f (.star g a) s1 k))

/-- Run `r` at the head of `s`, returning the unmatched suffix of the
preferred match. -/
def reRun (r : RE) (s : List Char) : Option (List Char) :=
  matchK ((reSize r + 1) * (s.length + 2)) r s some

/-- Leftmost match of `r` in `s`: `(prefix-before, matched, suffix-after)`. -/
def findFirst (r : RE) : List Char → Option (List Char × List Char × List Char)
  | [] => (reRun r []).map (fun rest => (([] : List Char), ([] : List Char), rest))
  | c :: cs =>
    match reRun r (c :: cs) with
    | some rest =>
      some (([] : List Char), (c :: cs).take ((c :: cs).length - rest.length), rest)
    | none => (findFirst r cs).map (fun pr => (c :: pr.1, pr.2.1, pr.2.2))

/-- Python `re.sub(r, rep, s)` (all occurrences, constant replacement):
replace the leftmost match, continue after it.  An empty match copies one
character forward (unreachable for the patterns below, which never match
the empty string).  Fuel `length + 1` is always sufficient since every
iteration consumes at least one character. -/
def subREGo (r : RE) (rep : List Char) : Nat → List Char → List Char
  | 0, s => s
  | f + 1, s =>
    match findFirst r s with
    | none => s
    | some (p, m, rest) =>
      if m = [] then
        p ++ rep ++
          (match rest with
           | [] => []
           | c :: cs => c :: subREGo r rep f cs)
      else p ++ rep ++ subREGo r rep f rest

/-- Python `re.sub` with a constant replacement string. -/
def subRE (r : RE) (rep s : List Char) : List Char :=
  subREGo r rep (s.length + 1) s

/-! ## Token vocabulary (`variables/sintax.py` is not under `src/`) -/

/-- Modelled from the spec: placeholder token `HTML` of the token
vocabulary contract (`variables/sintax.py` is missing from `src/`). -/
def HTML : List Char := "HTML".data

/-- Modelled from the spec: placeholder token `REFERENCE`. -/
def REFERENCE : List Char := "REFERENCE".data

/-- Modelled from the spec: placeholder token `LINK`. -/
def LINK : List Char := "LINK".data

/-- Modelled from the spec: placeholder token `URL`. -/
def URL : List Char := "URL".data

/-- Modelled from the spec: placeholder token `PATH`. -/
def PATH : List Char := "PATH".data

/-- Modelled from the spec: placeholder token `NUMBER`. -/
def NUMBER : List Char := "NUMBER".data

/-- Modelled from the spec: placeholder token `TRUE`. -/
def TRUE : List Char := "TRUE".data

/-- Modelled from the spec: placeholder token `FALSE`. -/
def FALSE : List Char := "FALSE".data

/-- Modelled from the spec: placeholder token `NULL`. -/
def NULL : List Char := "NULL".data

/-- Modelled from the spec: placeholder token stem `VARIABLE`
(used with an integer suffix, `VARIABLE0`, `VARIABLE1`, ...). -/
def VARIABLE : List Char := "VARIABLE".data

/-- Modelled from the spec: placeholder token `INVOCATION`. -/
def INVOCATION : List Char := "INVOCATION".data

/-- Modelled from the spec: placeholder token `DOT_INVOCATION`. -/
def DOT_INVOCATION : List Char := "DOT_INVOCATION".data

/-- Modelled from the spec: escape token `STABLE_REDUCTION`. -/
def STABLE_REDUCTION : List Char := "STABLE_REDUCTION".data

/-- Modelled from the spec: field-joining separator token `NEXT`. -/
def NEXT : List Char := "NEXT".data

/-- Modelled from the spec: `TAGS`, the closed set of vocabulary keywords
recognized by the lexical classifier (the uppercase placeholder identifiers
of the wire contract; `variables/sintax.py` is missing from `src/`). -/
def TAGS : List (List Char) :=
  [HTML, REFERENCE, LINK, URL, PATH, NUMBER, TRUE, FALSE, NULL, VARIABLE,
   INVOCATION, DOT_INVOCATION, STABLE_REDUCTION, NEXT]

/-- Modelled from the spec: `PUNCTUATION`, the fixed punctuation symbol set
surrounded with spaces by the punctuation-spacing pass (the exact set lives
in the missing `variables/sintax.py`; the spec fixes at least the sentence
period, as in its end-to-end example). -/
def PUNCTUATION : List Char := ['.', ',', '!', '?', ':', ';', '(', ')']

/-! ## The `Filter` classifier class -/

namespace Filter

/-- Python `str.isnumeric` (ASCII model): nonempty and all digits. -/
def isNumericStr : List Char → Bool
  | [] => false
  | d => d.all Char.isDigit

/-- `Filter.diff(s1, s2)`: remove the first occurrence of `s2` from `s1`.
`s1.index(s2)` raises `ValueError` when `s2` does not occur; that error
branch is modelled as `none`. -/
def diff (s1 s2 : List Char) : Option (List Char) :=
  (strFind s2 s1).map (fun left => s1.take left ++ s1.drop (left + s2.length))

/-- Loop body of `Filter.isKeyWord`: try each keyword in order; a keyword
occurring at position 0 whose stripped remainder is empty or numeric gives
`True`; the `diff` failure branch propagates as `none` (it never fires, see
the totality theorem). -/
def isKeyWordGo (s : List Char) : List (List Char) → Option Bool
  | [] => some false
  | kw :: rest =>
    if strFind kw s = some 0 then
      match diff s kw with
      | none => none
      | some d =>
        if d = [] ∨ isNumericStr d = true then some true else isKeyWordGo s rest
    else isKeyWordGo s rest

/-- `Filter.isKeyWord` with the `diff` error branch made explicit. -/
def isKeyWordOpt (s : List Char) : Option Bool := isKeyWordGo s TAGS

/-- `Filter.isKeyWord(string)`; total by the totality theorem, so the
default for the (unreachable) error branch is irrelevant. -/
def isKeyWord (s : List Char) : Bool := (isKeyWordOpt s).getD false

/-- `Filter.isPunctuation(string)`: membership in the punctuation set
(each member of the Python list is a one-character string). -/
def isPunctuation (w : List Char) : Bool :=
  match w with
  | [c] => PUNCTUATION.contains c
  | _ => false

/-- Python `str.isalpha` (ASCII model): nonempty and all letters. -/
def isAlphaStr : List Char → Bool
  | [] => false
  | w => w.all Char.isAlpha

/-- `Filter.wordsNumber(words)`: how many words are keywords or purely
alphabetic. -/
def wordsNumber (words : List (List Char)) : Nat :=
  (words.filter (fun w => isKeyWord w || isAlphaStr w)).length

end Filter

/-! ## Rewrite passes -/

/-- Regex `".*?[^\\]"` of `filterStrings`: a quote, a lazy run of
non-newline characters, a non-backslash character, a quote. -/
def stringLitRE : RE :=
  .cat (reChar '"')
    (.cat (.star false (.cls (fun c => c ≠ '\n')))
      (.cat (.cls (fun c => c ≠ '\\')) (reChar '"')))

/-- `filterStrings(string)`.  The source's replacement is `" %s " % string`,
i.e. the whole input string surrounded by single spaces (not a placeholder
token): each quoted literal is replaced by a space-padded copy of the whole
input. -/
def filterStrings (s : List Char) : List Char :=
  subRE stringLitRE (' ' :: s ++ [' ']) s

/-- Regex `<[^>]*>` of `filterTags`. -/
def tagRE : RE :=
  .cat (reChar '<') (.cat (.star true (.cls (fun c => c ≠ '>'))) (reChar '>'))

/-- `filterTags(string)`: HTML-like spans become ` HTML `. -/
def filterTags (s : List Char) : List Char :=
  subRE tagRE (' ' :: HTML ++ [' ']) s

/-- Regex `&\w+` of `filterRefs`. -/
def refRE : RE := .cat (reChar '&') (rePlus (.cls isPyWordChar))

/-- `filterRefs(string)`: entity references become ` REFERENCE `. -/
def filterRefs (s : List Char) : List Char :=
  subRE refRE (' ' :: REFERENCE ++ [' ']) s

/-- Regex `(\{@|@\{)[^\}]*\}` of `filterLinks`. -/
def linkRE : RE :=
  .cat (.alt (reStr ['\x7b', '@']) (reStr ['@', '\x7b']))
    (.cat (.star true (.cls (fun c => c ≠ '\x7d'))) (reChar '\x7d'))

/-- `filterLinks(string)`: doc links become ` LINK `. -/
def filterLinks (s : List Char) : List Char :=
  subRE linkRE (' ' :: LINK ++ [' ']) s

/-- One path segment of `filterPaths`: `/[a-zA-Z](\w|\.|\\\s)*`. -/
def pathSegRE : RE :=
  .cat (reChar '/')
    (.cat (.cls Char.isAlpha)
      (.star true
        (.alt (.cls isPyWordChar)
          (.alt (reChar '.') (.cat (reChar '\\') (.cls isPySpace))))))

/-- Regex `(/[a-zA-Z](\w|\.|\\\s)*){2,}` of `filterPaths`. -/
def pathsRE : RE := .cat pathSegRE (.cat pathSegRE (.star true pathSegRE))

/-- `filterPaths(string)`: filesystem paths become ` PATH `.  Defined in the
source but never invoked by `applyFiltersForString`. -/
def filterPaths (s : List Char) : List Char :=
  subRE pathsRE (' ' :: PATH ++ [' ']) s

/-- Scheme part `\w+:(//|\\\\)` of the URL regex. -/
def urlSchemeRE : RE :=
  .cat (rePlus (.cls isPyWordChar))
    (.cat (reChar ':') (.alt (reStr ['/', '/']) (reStr ['\\', '\\'])))

/-- Host part `\w+[\w.@]*\.[a-z]{2,3}` of the URL regex. -/
def urlHostRE : RE :=
  .cat (rePlus (.cls isPyWordChar))
    (.cat (.star true (.cls (fun c => isPyWordChar c || c = '.' || c = '@')))
      (.cat (reChar '.')
        (.cat (.cls Char.isLower) (.cat (.cls Char.isLower) (reOpt (.cls Char.isLower))))))

/-- Regex `((\w+:(//|\\\\))?(\w+[\w.@]*\.[a-z]{2,3})(\w|\.|/|\\|\?|=|-)*)|(\w+:(//|\\\\))`
of `filterURLs`. -/
def urlRE : RE :=
  .alt
    (.cat (reOpt urlSchemeRE)
      (.cat urlHostRE
        (.star true
          (.cls (fun c =>
            isPyWordChar c || c = '.' || c = '/' || c = '\\' || c = '?' || c = '=' || c = '-')))))
    urlSchemeRE

/-- `filterURLs(string)`: URL-like strings become ` URL `. -/
def filterURLs (s : List Char) : List Char :=
  subRE urlRE (' ' :: URL ++ [' ']) s

/-- Regex `(\+|-)?(\d+(\.|,)?\d+|\d+)` of `filterNumbers`. -/
def numberRE : RE :=
  .cat (reOpt (.alt (reChar '+') (reChar '-')))
    (.alt
      (.cat (rePlus (.cls Char.isDigit))
        (.cat (reOpt (.alt (reChar '.') (reChar ','))) (rePlus (.cls Char.isDigit))))
      (rePlus (.cls Char.isDigit)))

/-- `filterNumbers(string)`: numeric literals become ` NUMBER `. -/
def filterNumbers (s : List Char) : List Char :=
  subRE numberRE (' ' :: NUMBER ++ [' ']) s

/-- `filterConstants(string)`: five sequential literal `re.sub` calls
(`true`, `false`, `null`, `nil`, `none`). -/
def filterConstants (s : List Char) : List Char :=
  let s := pyReplace "true".data (' ' :: TRUE ++ [' ']) s
  let s := pyReplace "false".data (' ' :: FALSE ++ [' ']) s
  let s := pyReplace "null".data (' ' :: NULL ++ [' ']) s
  let s := pyReplace "nil".data (' ' :: NULL ++ [' ']) s
  pyReplace "none".data (' ' :: NULL ++ [' ']) s

/-- Loop body of `filterParamNames`: for each parameter `p` at index `i`,
replace the space-delimited occurrence `" p "` by `" VARIABLEi "`. -/
def filterParamNamesGo : List Char → Nat → List (List Char) → List Char
  | s, _, [] => s
  | s, i, p :: ps =>
    filterParamNamesGo
      (pyReplace (' ' :: p ++ [' ']) (' ' :: VARIABLE ++ (Nat.repr i).data ++ [' ']) s)
      (i + 1) ps

/-- `filterParamNames(string, params)`. -/
def filterParamNames (s : List Char) (params : List (List Char)) : List Char :=
  filterParamNamesGo s 0 params

/-- Sub-regex `(\s|\t)*` of `filterFunctionInvocation` (the alternation with
`\t` is redundant since `\t` is already in `\s`). -/
def invSpaceRE : RE := .star true (.cls isPySpace)

/-- Sub-regex `(\@|[a-zA-Z])\w*` of `filterFunctionInvocation`. -/
def invWordRE : RE :=
  .cat (.cls (fun c => c = '@' || c.isAlpha)) (.star true (.cls isPyWordChar))

/-- Sub-regex `({space}{word}{space}\=)?{space}{word}` (one argument,
optionally named). -/
def invParamRE : RE :=
  .cat (reOpt (.cat invSpaceRE (.cat invWordRE (.cat invSpaceRE (reChar '=')))))
    (.cat invSpaceRE invWordRE)

/-- Regex `{space}{word}({space}\(({param}({space}\,{param})*)?\))+` of
`filterFunctionInvocation`. -/
def invocationRE : RE :=
  .cat invSpaceRE
    (.cat invWordRE
      (rePlus
        (.cat invSpaceRE
          (.cat (reChar '(')
            (.cat
              (reOpt
                (.cat invParamRE
                  (.star true (.cat invSpaceRE (.cat (reChar ',') invParamRE)))))
              (reChar ')'))))))

/-- `filterFunctionInvocation(string)`: call-like spans become ` INVOCATION `. -/
def filterFunctionInvocation (s : List Char) : List Char :=
  subRE invocationRE (' ' :: INVOCATION ++ [' ']) s

/-- Match of `([a-zA-Z])\.([a-zA-Z])\.` at the head of the input:
letter, dot, letter, dot. -/
def abbrevAt : List Char → Option (Char × Char × List Char)
  | a :: '.' :: b :: '.' :: rest =>
    if a.isAlpha ∧ b.isAlpha then some (a, b, rest) else none
  | _ => none

/-- Leftmost match of the abbreviation pattern: `(before, x, y, after)`. -/
def findAbbrev : List Char → Option (List Char × Char × Char × List Char)
  | [] => none
  | c :: cs =>
    match abbrevAt (c :: cs) with
    | some (a, b, rest) => some (([] : List Char), a, b, rest)
    | none => (findAbbrev cs).map (fun r => (c :: r.1, r.2.1, r.2.2.1, r.2.2.2))

/-- Substitution loop of `filterStableReduction`: each `x.y.` becomes
` STABLE_REDUCTION_x_y_ `. -/
def filterStableReductionGo : Nat → List Char → List Char
  | 0, s => s
  | f + 1, s =>
    match findAbbrev s with
    | none => s
    | some (p, a, b, rest) =>
      p ++ (' ' :: STABLE_REDUCTION ++ ['_', a, '_', b, '_', ' ']) ++
        filterStableReductionGo f rest

/-- `filterStableReduction(string)`: escape two-letter abbreviations. -/
def filterStableReduction (s : List Char) : List Char :=
  filterStableReductionGo (s.length + 1) s

/-- Strip a literal prefix, or fail. -/
def dropLit : List Char → List Char → Option (List Char)
  | [], s => some s
  | _ :: _, [] => none
  | c :: cs, d :: ds => if c = d then dropLit cs ds else none

/-- Match of `STABLE_REDUCTION_([^_]+)_([^_]+)_` at the head of the input,
returning the two captured groups and the rest. -/
def placeholderAt (s : List Char) : Option (List Char × List Char × List Char) :=
  match dropLit (STABLE_REDUCTION ++ ['_']) s with
  | none => none
  | some s1 =>
    let g1 := s1.takeWhile (fun c => c ≠ '_')
    match s1.dropWhile (fun c => c ≠ '_') with
    | '_' :: s2 =>
      if g1 = [] then none
      else
        let g2 := s2.takeWhile (fun c => c ≠ '_')
        match s2.dropWhile (fun c => c ≠ '_') with
        | '_' :: rest => if g2 = [] then none else some (g1, g2, rest)
        | _ => none
    | _ => none

/-- Leftmost match of the escape-placeholder pattern:
`(before, group1, group2, after)`. -/
def findPlaceholder : List Char → Option (List Char × List Char × List Char × List Char)
  | [] => none
  | c :: cs =>
    match placeholderAt (c :: cs) with
    | some (g1, g2, rest) => some (([] : List Char), g1, g2, rest)
    | none => (findPlaceholder cs).map (fun r => (c :: r.1, r.2.1, r.2.2.1, r.2.2.2))

/-- Substitution loop of `unpackStableReduction`: each placeholder becomes
` x.y. `. -/
def unpackStableReductionGo : Nat → List Char → List Char
  | 0, s => s
  | f + 1, s =>
    match findPlaceholder s with
    | none => s
    | some (p, g1, g2, rest) =>
      p ++ (' ' :: g1 ++ '.' :: g2 ++ ['.', ' ']) ++ unpackStableReductionGo f rest

/-- `unpackStableReduction(string)`: restore escaped abbreviations. -/
def unpackStableReduction (s : List Char) : List Char :=
  unpackStableReductionGo (s.length + 1) s

/-- Whether the text contains an `x.y.` abbreviation pattern (a match of the
`filterStableReduction` regex). -/
def hasAbbrev (s : List Char) : Bool := (findAbbrev s).isSome

/-- Whether the text contains a `STABLE_REDUCTION_<seq>_<seq>_` escape
placeholder (a match of the `unpackStableReduction` regex). -/
def hasPlaceholder (s : List Char) : Bool := (findPlaceholder s).isSome

/-- `expandWordsAndSymbols(string)`: the generated pattern is a one-character
alternation over `PUNCTUATION` with replacement ` \1 `, i.e. every
punctuation character is surrounded by single spaces. -/
def expandWordsAndSymbols (s : List Char) : List Char :=
  s.flatMap (fun c => if PUNCTUATION.contains c then [' ', c, ' '] else [c])

/-- Substitution loop of `filterLongSpaces` (`re.sub("(\s|\t)+", " ", s)`):
a maximal run of whitespace becomes one space.  The flag records whether we
are inside a run that has already emitted its space. -/
def filterLongSpacesGo : Bool → List Char → List Char
  | _, [] => []
  | inRun, c :: cs =>
    if isPySpace c then
      if inRun then filterLongSpacesGo true cs
      else ' ' :: filterLongSpacesGo true cs
    else c :: filterLongSpacesGo false cs

/-- `filterLongSpaces(string)`. -/
def filterLongSpaces (s : List Char) : List Char := filterLongSpacesGo false s

/-- No two consecutive spaces anywhere in the list (specification-side
predicate for the whitespace-normal form). -/
def noDouble : List Char → Bool
  | [] => true
  | [_] => true
  | c1 :: c2 :: rest => !(c1 = ' ' && c2 = ' ') && noDouble (c2 :: rest)

/-- `filterFirstAndEndSpaces(string)`: drop one leading space if present,
then one trailing space if present, with the source's emptiness
short-circuits. -/
def filterFirstAndEndSpaces (s : List Char) : List Char :=
  match s with
  | [] => []
  | c :: rest =>
    let s1 := if c = ' ' then rest else c :: rest
    if s1 = [] then s1
    else if s1.getLast? = some ' ' then s1.dropLast else s1

/-- Match of `(.)([A-Z][a-z]+)` at the head of the input; returns the
rendered replacement `\1_\2` and the rest (scanning resumes after the
match). -/
def camel1At : List Char → Option (List Char × List Char)
  | c :: d :: rest =>
    if c ≠ '\n' ∧ d.isUpper ∧ rest.takeWhile Char.isLower ≠ [] then
      some ([c, '_', d] ++ rest.takeWhile Char.isLower, rest.dropWhile Char.isLower)
    else none
  | _ => none

/-- Leftmost match for the first `convert` regex. -/
def findCamel1 : List Char → Option (List Char × List Char × List Char)
  | [] => none
  | c :: cs =>
    match camel1At (c :: cs) with
    | some (mrep, rest) => some (([] : List Char), mrep, rest)
    | none => (findCamel1 cs).map (fun r => (c :: r.1, r.2.1, r.2.2))

/-- Substitution loop of `re.sub(r"(.)([A-Z][a-z]+)", r"\1_\2", name)`. -/
def camel1Go : Nat → List Char → List Char
  | 0, s => s
  | f + 1, s =>
    match findCamel1 s with
    | none => s
    | some (p, mrep, rest) => p ++ mrep ++ camel1Go f rest

/-- Match of `([a-z0-9])([A-Z])` at the head of the input. -/
def camel2At : List Char → Option (List Char × List Char)
  | c :: d :: rest =>
    if (c.isLower ∨ c.isDigit) ∧ d.isUpper then some ([c, '_', d], rest) else none
  | _ => none

/-- Leftmost match for the second `convert` regex. -/
def findCamel2 : List Char → Option (List Char × List Char × List Char)
  | [] => none
  | c :: cs =>
    match camel2At (c :: cs) with
    | some (mrep, rest) => some (([] : List Char), mrep, rest)
    | none => (findCamel2 cs).map (fun r => (c :: r.1, r.2.1, r.2.2))

/-- Substitution loop of `re.sub(r"([a-z0-9])([A-Z])", r"\1_\2", s1)`. -/
def camel2Go : Nat → List Char → List Char
  | 0, s => s
  | f + 1, s =>
    match findCamel2 s with
    | none => s
    | some (p, mrep, rest) => p ++ mrep ++ camel2Go f rest

/-- `convert(name)`: split camel-case with underscores, then lowercase
(`str.lower` modelled on ASCII). -/
def convert (name : List Char) : List Char :=
  let s1 := camel1Go (name.length + 1) name
  (camel2Go (s1.length + 1) s1).map Char.toLower

/-- `applyFiltersForString(string, params)`: the full ordered pipeline of the
source (`filterDotTuple` and `filterMeaninglessSentences` are commented out
there and therefore absent here). -/
def applyFiltersForString (s : List Char) (params : List (List Char)) : List Char :=
  if s = [] then s
  else
    let s1 := s.map Char.toLower
    let s2 := filterStrings s1
    let s3 := filterTags s2
    let s4 := filterRefs s3
    let s5 := filterLinks s4
    let s6 := filterStableReduction s5
    let s7 := filterURLs s6
    let s8 := filterNumbers s7
    let s9 := filterConstants s8
    let s10 := filterParamNames s9 params
    let s11 := filterFunctionInvocation s10
    let s12 := expandWordsAndSymbols s11
    let s13 := unpackStableReduction s12
    let s14 := filterLongSpaces s13
    filterFirstAndEndSpaces s14

/-! ## Sentence quality filter -/

/-- Python `sentence.split(" ")`: split on every single space, keeping empty
fragments. -/
def splitOnSpaceGo : List Char → List Char → List (List Char)
  | acc, [] => [acc.reverse]
  | acc, c :: cs =>
    if c = ' ' then acc.reverse :: splitOnSpaceGo [] cs
    else splitOnSpaceGo (c :: acc) cs

/-- Python `str.split(" ")` on `List Char`. -/
def splitOnSpace (s : List Char) : List (List Char) := splitOnSpaceGo [] s

/-- The nonempty words of a sentence:
`[word for word in sentence.split(" ") if len(word) > 0]`. -/
def sentenceWords (sent : List Char) : List (List Char) :=
  (splitOnSpace sent).filter (fun w => w ≠ [])

/-- Decision of `filterMeaninglessSentences` for one completed sentence:
keep iff `wordsNumber(words) / len(words)` is strictly greater than the
threshold (the source compares with `>`).  The threshold
`NORMAL_CONCENTRATION_OF_WORDS` lives in the missing `variables/sintax.py`,
so it is a parameter here; the division of the source is modelled exactly
over `ℚ` as `mkRat` (`mkRat a b = (a : ℚ) / (b : ℚ)` by
`Rat.mkRat_eq_div`). -/
def sentenceKeep (thr : ℚ) (sent : List Char) : Bool :=
  let words := sentenceWords sent
  decide (mkRat (Filter.wordsNumber words) words.length > thr)

/-- Loop of `filterMeaninglessSentences`: accumulate characters; at a period
with at least one preceding character, close the sentence and either keep it
(first component) or report it (second component, the source's `print`).
The trailing unterminated fragment is discarded, as in the source. -/
def filterMeaninglessSentencesGo (thr : ℚ) :
    List Char → List Char → List (List Char) × List (List Char)
  | _, [] => ([], [])
  | sent, c :: cs =>
    let sent1 := sent ++ [c]
    if c = '.' ∧ sent1.length > 1 then
      let rest := filterMeaninglessSentencesGo thr [] cs
      if sentenceKeep thr sent1 then (sent1 :: rest.1, rest.2)
      else (rest.1, sent1 :: rest.2)
    else filterMeaninglessSentencesGo thr sent1 cs

/-- `filterMeaninglessSentences(string)`: concatenation of the kept
sentences. -/
def filterMeaninglessSentences (thr : ℚ) (s : List Char) : List Char :=
  (filterMeaninglessSentencesGo thr [] s).1.flatten

/-- The sentences rejected (printed as diagnostics) by
`filterMeaninglessSentences`. -/
def rejectedSentences (thr : ℚ) (s : List Char) : List (List Char) :=
  (filterMeaninglessSentencesGo thr [] s).2

/-- Specification-side sentence splitter: the completed sentences of the
text, each ending at a literal period preceded by at least one character
(same boundary logic as the source loop, without any filtering). -/
def completedSentencesGo : List Char → List Char → List (List Char)
  | _, [] => []
  | sent, c :: cs =>
    let sent1 := sent ++ [c]
    if c = '.' ∧ sent1.length > 1 then sent1 :: completedSentencesGo [] cs
    else completedSentencesGo sent1 cs

/-- The completed sentences of a text. -/
def completedSentences (s : List Char) : List (List Char) :=
  completedSentencesGo [] s

/-! ## Records and the orchestrator (`utils/method.py` is not under `src/`) -/

/-- Modelled from the spec: the `JavaDoc` record of the missing
`utils/method.py` — summary plus the description sequences. -/
structure JavaDoc where
  head : List Char
  params : List (List Char)
  vars : List (List Char)  -- the source field is named `variables`, a reserved keyword in Lean
  results : List (List Char)
  throws : List (List Char)
  sees : List (List Char)

/-- Modelled from the spec: `JavaDoc.empty()` is true iff every text field
and every description sequence is empty. -/
def JavaDoc.empty (j : JavaDoc) : Bool :=
  j.head.isEmpty && j.params.isEmpty && j.vars.isEmpty &&
    j.results.isEmpty && j.throws.isEmpty && j.sees.isEmpty

/-- Modelled from the spec: a `Method` record of the missing
`utils/method.py`, reduced to what `applyFiltersForMethod` reads — the
declared parameter names (`[param.name for param in
method.description.params]`) and the documentation record. -/
structure Method where
  paramNames : List (List Char)
  javaDoc : JavaDoc

/-- Python `enumerate` folded into a map: `enumMap f k [a, b, ...] =
[f k a, f (k+1) b, ...]`. -/
def enumMap {α β : Type} (f : Nat → α → β) : Nat → List α → List β
  | _, [] => []
  | i, a :: as => f i a :: enumMap f (i + 1) as

/-- `applyFiltersForMethod(method)`: derive the `@variable<i>` entries from
the parameter names, then run the pipeline over every text field with the
same parameter list. -/
def applyFiltersForMethod (m : Method) : Method :=
  let ps := m.paramNames
  let jd := m.javaDoc
  let jd1 : JavaDoc :=
    { head := applyFiltersForString jd.head ps
      params := jd.params.map (fun p => applyFiltersForString p ps)
      vars :=
        enumMap
          (fun i name =>
            "@variable".data ++ (Nat.repr i).data ++ ' ' ::
              applyFiltersForString (pyReplace ['_'] [' '] (convert name)) ps)
          0 ps
      results := jd.results.map (fun r => applyFiltersForString r ps)
      throws := jd.throws.map (fun t => applyFiltersForString t ps)
      sees := jd.sees.map (fun t => applyFiltersForString t ps) }
  { m with javaDoc := jd1 }

/-- `join(javaDoc)`: flatten a record into the ordered field pairs, each
description list joined with the ` NEXT ` separator (`sees` and `throws`
are commented out in the source). -/
def join (javaDoc : JavaDoc) : List (List Char × List Char) :=
  [("head".data, javaDoc.head),
   ("params".data, List.intercalate (' ' :: NEXT ++ [' ']) javaDoc.params),
   ("variables".data, List.intercalate (' ' :: NEXT ++ [' ']) javaDoc.vars),
   ("results".data, List.intercalate (' ' :: NEXT ++ [' ']) javaDoc.results)]

/-- `isNotEmpty(method)`, the default record filter. -/
def isNotEmpty (m : Method) : Bool := !(m.javaDoc.empty)

/-- `applyFiltersForMethods(methods, filtrator)`: `Pool.map` returns its
results in input order, so the parallel map is modelled as `List.map`; the
surviving records are flattened by `join`.  (In the source `filtrator`
defaults to `isNotEmpty`.) -/
def applyFiltersForMethods (methods : List Method)
    (filtrator : Method → Bool) : List (List (List Char × List Char)) :=
  ((methods.map applyFiltersForMethod).filter filtrator).map
    (fun m => join m.javaDoc)

/-! ## Helper lemmas -/

/-- When the abbreviation pattern has no match, the escape pass is the
identity (any fuel). -/
theorem filterStableReductionGo_of_none (f : Nat) (s : List Char)
    (h : findAbbrev s = none) : filterStableReductionGo f s = s := by
  cases f with
  | zero => rfl
  | succ f => simp [filterStableReductionGo, h]

/-- When the placeholder pattern has no match, the restore pass is the
identity (any fuel). -/
theorem unpackStableReductionGo_of_none (f : Nat) (s : List Char)
    (h : findPlaceholder s = none) : unpackStableReductionGo f s = s := by
  cases f with
  | zero => rfl
  | succ f => simp [unpackStableReductionGo, h]

/-- The replacement loop does not depend on the fuel once the fuel covers
the input length (every step consumes at least one character). -/
theorem pyReplaceGo_fuel (pat rep : List Char) :
    ∀ (f g : Nat) (s : List Char), s.length ≤ f → s.length ≤ g →
      pyReplaceGo pat rep f s = pyReplaceGo pat rep g s := by
  intro f
  induction f with
  | zero =>
    intro g s hf hg
    have hs : s = [] := List.eq_nil_of_length_eq_zero (Nat.le_zero.mp hf)
    subst hs
    cases g <;> rfl
  | succ f ih =>
    intro g s hf hg
    cases s with
    | nil => cases g <;> rfl
    | cons c cs =>
      cases g with
      | zero => exact absurd hg (by simp)
      | succ g =>
        simp only [pyReplaceGo]
        by_cases h : pat.isPrefixOf (c :: cs) = true ∧ pat ≠ []
        · rw [if_pos h, if_pos h]
          congr 1
          have hp : 0 < pat.length := List.length_pos.mpr h.2
          apply ih
          · simp only [List.length_drop, List.length_cons]
            simp only [List.length_cons] at hf
            omega
          · simp only [List.length_drop, List.length_cons]
            simp only [List.length_cons] at hg
            omega
        · rw [if_neg h, if_neg h]
          congr 1
          simp only [List.length_cons] at hf hg
          exact ih g cs (by omega) (by omega)

/-- A text with no occurrence of the pattern is returned unchanged by the
replacement loop (first clause of Python `str.replace` semantics). -/
theorem pyReplace_no_occurrence (pat rep : List Char) :
    ∀ (f : Nat) (s : List Char), strFind pat s = none →
      pyReplaceGo pat rep f s = s := by
  intro f s
  induction s generalizing f with
  | nil => intro _; cases f <;> rfl
  | cons c cs ih =>
    intro h
    have hp : pat.isPrefixOf (c :: cs) = false := by
      cases hq : pat.isPrefixOf (c :: cs)
      · rfl
      · rw [strFind, if_pos hq] at h
        exact absurd h (by simp)
    have hcs : strFind pat cs = none := by
      rw [strFind, if_neg (by simp [hp])] at h
      cases hq : strFind pat cs
      · rfl
      · rw [hq] at h
        exact absurd h (by simp)
    cases f with
    | zero => rfl
    | succ f =>
      simp only [pyReplaceGo]
      rw [if_neg (fun hcon => by simp [hp] at hcon)]
      rw [ih f hcs]

/-- Second clause of Python `str.replace` semantics: the leftmost occurrence
of the (nonempty) pattern is replaced and the scan continues, non-overlapping,
after it. -/
theorem pyReplace_leftmost (pat rep : List Char) (hpat : pat ≠ []) :
    ∀ (s : List Char) (n : Nat), strFind pat s = some n →
      pyReplace pat rep s =
        s.take n ++ rep ++ pyReplace pat rep (s.drop (n + pat.length)) := by
  intro s
  induction s with
  | nil =>
    intro n h
    have hp : pat.isPrefixOf ([] : List Char) = false := by
      cases pat with
      | nil => exact absurd rfl hpat
      | cons _ _ => rfl
    rw [strFind, if_neg (by simp [hp])] at h
    exact absurd h (by simp)
  | cons c cs ih =>
    intro n h
    by_cases hp : pat.isPrefixOf (c :: cs) = true
    · have hn : n = 0 := by
        rw [strFind, if_pos hp] at h
        exact (Option.some_inj.mp h).symm
      subst hn
      show pyReplaceGo pat rep ((c :: cs).length + 1) (c :: cs) = _
      simp only [pyReplaceGo]
      rw [if_pos ⟨hp, hpat⟩]
      simp only [List.take_zero, List.nil_append, Nat.zero_add]
      congr 1
      exact pyReplaceGo_fuel pat rep _ _ _
        (by simp only [List.length_drop]; omega) (by simp)
    · have hm : ∃ m, strFind pat cs = some m ∧ n = m + 1 := by
        rw [strFind, if_neg (by simp [hp])] at h
        cases hq : strFind pat cs with
        | none =>
          rw [hq] at h
          exact absurd h (by simp)
        | some m =>
          rw [hq] at h
          simp at h
          exact ⟨m, rfl, h.symm⟩
      obtain ⟨m, hc, rfl⟩ := hm
      show pyReplaceGo pat rep ((c :: cs).length + 1) (c :: cs) = _
      simp only [pyReplaceGo]
      rw [if_neg (fun hcon => by simp [hp] at hcon)]
      have hfuel : pyReplaceGo pat rep ((c :: cs).length) cs = pyReplace pat rep cs :=
        pyReplaceGo_fuel pat rep ((c :: cs).length) (cs.length + 1) cs
          (by simp only [List.length_cons]; omega) (by omega)
      rw [hfuel, ih m hc]
      rw [List.take_succ_cons, Nat.add_right_comm m 1 pat.length, List.drop_succ_cons]
      simp [List.cons_append]

/-- `strFind` returns index `0` exactly when the pattern is a prefix. -/
theorem strFind_zero_iff (pat s : List Char) :
    strFind pat s = some 0 ↔ pat.isPrefixOf s = true := by
  cases s with
  | nil =>
    by_cases h : pat.isPrefixOf ([] : List Char) = true <;> simp [strFind, h]
  | cons c cs =>
    by_cases h : pat.isPrefixOf (c :: cs) = true
    · simp [strFind, h]
    · simp only [strFind, h]
      rw [if_neg (by simp only [Bool.not_eq_true] at h; simp [h])]
      cases strFind pat cs <;> simp [h]

/-- The `isKeyWord` loop never reaches the `diff` error branch. -/
theorem isKeyWordGo_isSome (s : List Char) :
    ∀ tags, (Filter.isKeyWordGo s tags).isSome = true := by
  intro tags
  induction tags with
  | nil => rfl
  | cons kw rest ih =>
    by_cases h : strFind kw s = some 0
    · have hd : Filter.diff s kw = some (s.take 0 ++ s.drop (0 + kw.length)) := by
        simp [Filter.diff, h]
      simp only [Filter.isKeyWordGo, if_pos h, hd]
      split <;> simp [ih]
    · simp only [Filter.isKeyWordGo, if_neg h]
      exact ih

/-- Characterization of the `isKeyWord` loop: it yields `some true` exactly
when some keyword of the list is a prefix whose stripped remainder is empty
or numeric. -/
theorem isKeyWordGo_true_iff (s : List Char) :
    ∀ tags, Filter.isKeyWordGo s tags = some true ↔
      ∃ t ∈ tags, t.isPrefixOf s = true ∧
        (s.drop t.length = [] ∨ Filter.isNumericStr (s.drop t.length) = true) := by
  intro tags
  induction tags with
  | nil => simp [Filter.isKeyWordGo]
  | cons kw rest ih =>
    by_cases h : strFind kw s = some 0
    · have hd : Filter.diff s kw = some (s.drop kw.length) := by
        simp [Filter.diff, h]
      have hpre : kw.isPrefixOf s = true := (strFind_zero_iff kw s).mp h
      by_cases hc : s.drop kw.length = [] ∨ Filter.isNumericStr (s.drop kw.length) = true
      · simp only [Filter.isKeyWordGo, if_pos h, hd]
        rw [if_pos hc]
        constructor
        · intro _
          exact ⟨kw, List.mem_cons_self kw rest, hpre, hc⟩
        · intro _
          rfl
      · simp only [Filter.isKeyWordGo, if_pos h, hd]
        rw [if_neg hc, ih]
        constructor
        · rintro ⟨t, ht, hp, hrem⟩
          exact ⟨t, List.mem_cons_of_mem kw ht, hp, hrem⟩
        · rintro ⟨t, ht, hp, hrem⟩
          rcases List.mem_cons.mp ht with rfl | ht
          · exact absurd hrem hc
          · exact ⟨t, ht, hp, hrem⟩
    · have hnp : kw.isPrefixOf s = false := by
        cases hq : kw.isPrefixOf s
        · rfl
        · exact absurd ((strFind_zero_iff kw s).mpr hq) h
      simp only [Filter.isKeyWordGo, if_neg h]
      rw [ih]
      constructor
      · rintro ⟨t, ht, hp, hrem⟩
        exact ⟨t, List.mem_cons_of_mem kw ht, hp, hrem⟩
      · rintro ⟨t, ht, hp, hrem⟩
        rcases List.mem_cons.mp ht with rfl | ht
        · rw [hnp] at hp
          exact absurd hp (by simp)
        · exact ⟨t, ht, hp, hrem⟩

/-- `List.get?` commutes with `List.map`. -/
theorem get?_map_eq {α β : Type} (f : α → β) :
    ∀ (l : List α) (n : Nat), (l.map f).get? n = (l.get? n).map f := by
  intro l
  induction l with
  | nil => intro n; cases n <;> rfl
  | cons a as ih => intro n; cases n with
    | zero => rfl
    | succ n =>
      simp only [List.map_cons, List.get?]
      exact ih n

/-- `List.get?` of `enumMap`. -/
theorem enumMap_get? {α β : Type} (f : Nat → α → β) :
    ∀ (l : List α) (k i : Nat),
      (enumMap f k l).get? i = (l.get? i).map (fun a => f (k + i) a) := by
  intro l
  induction l with
  | nil => intro k i; cases i <;> rfl
  | cons a as ih =>
    intro k i
    cases i with
    | zero => simp [enumMap]
    | succ i =>
      have := ih (k + 1) i
      simpa [enumMap, Nat.add_assoc, Nat.add_comm 1 i] using this

/-! ## Claims -/

/-- C1 (counterexample): the claim says every filesystem path in the input
is replaced by the PATH placeholder, but the full pipeline returns the raw
path `/abc/defg` unchanged and its output contains no `PATH` token. -/
theorem c1_path_survives_pipeline :
    applyFiltersForString ("/abc/defg".data) [] = "/abc/defg".data ∧
    (strFind ("PATH".data) (applyFiltersForString ("/abc/defg".data) [])).isSome = false := by
  constructor
  · decide
  · decide

/-- C1 (amended): `filterPaths` does replace filesystem paths with the PATH
placeholder, but `applyFiltersForString` never invokes it, so a raw path
survives the full pipeline unchanged. -/
theorem c1_path_pass_defined_but_not_invoked :
    filterPaths ("/abc/defg".data) = " PATH ".data ∧
    applyFiltersForString ("/abc/defg".data) [] = "/abc/defg".data := by
  constructor
  · decide
  · decide

/-- C2 (code bug): `filterStrings` replaces the quoted literal `"b"` not by
a STRING placeholder but by a space-padded copy of the whole input (the
source's replacement is `" %s " % string`), so the quoted span survives in
the output. -/
theorem c2_filterStrings_inserts_whole_input :
    filterStrings ("a \"b\" c".data) = "a  a \"b\" c  c".data ∧
    (strFind ("\"b\"".data) (filterStrings ("a \"b\" c".data))).isSome = true := by
  constructor
  · decide
  · decide

/-- C3 (counterexample): an occurrence of the parameter name at the start of
the text is not rewritten — `filterParamNames` only replaces space-delimited
occurrences, so `x is nice` with parameter list `[x]` is returned unchanged
and contains no VARIABLE token. -/
theorem c3_no_substitution_at_text_start :
    filterParamNames ("x is nice".data) ["x".data] = "x is nice".data ∧
    (strFind ("VARIABLE".data) (filterParamNames ("x is nice".data) ["x".data])).isSome = false := by
  constructor
  · decide
  · decide

/-- C3 (amended): the step of parameter-name substitution for the parameter
enumerated at index `i` replaces space-bounded occurrences of the name,
left-to-right and non-overlapping, in arbitrary text: a text with no
occurrence of `" p "` — in particular one where `p` occurs only at the
start or end — is left unchanged, and otherwise the leftmost space-bounded
occurrence is rewritten to `" VARIABLE<i> "` with replacement continuing
after the consumed span (`filterParamNames` is the loop started at index
0). -/
theorem c3_space_bounded_occurrence_substituted (p s : List Char) (i : Nat) :
    filterParamNames s [p] = filterParamNamesGo s 0 [p] ∧
    (strFind (' ' :: p ++ [' ']) s = none → filterParamNamesGo s i [p] = s) ∧
    (∀ n, strFind (' ' :: p ++ [' ']) s = some n →
      filterParamNamesGo s i [p] =
        s.take n ++ (' ' :: VARIABLE ++ (Nat.repr i).data ++ [' ']) ++
          pyReplace (' ' :: p ++ [' '])
            (' ' :: VARIABLE ++ (Nat.repr i).data ++ [' '])
            (s.drop (n + (' ' :: p ++ [' ']).length))) := by
  refine ⟨rfl, ?_, ?_⟩
  · intro h
    show pyReplace (' ' :: p ++ [' '])
      (' ' :: VARIABLE ++ (Nat.repr i).data ++ [' ']) s = s
    exact pyReplace_no_occurrence _ _ _ s h
  · intro n h
    show pyReplace (' ' :: p ++ [' '])
      (' ' :: VARIABLE ++ (Nat.repr i).data ++ [' ']) s = _
    exact pyReplace_leftmost _ _ (by simp) s n h

/-- C3 (witness): both branches of the amended theorem at concrete inputs —
`x is nice` (the parameter only at the start, no space-bounded occurrence,
unchanged) and `the x value` (leftmost space-bounded occurrence at index 3,
rewritten to `VARIABLE0`). -/
theorem c3_space_bounded_occurrence_substituted_witness :
    filterParamNamesGo ("x is nice".data) 0 ["x".data] = "x is nice".data ∧
    filterParamNamesGo ("the x value".data) 0 ["x".data] =
      ("the x value".data).take 3 ++ (' ' :: VARIABLE ++ (Nat.repr 0).data ++ [' ']) ++
        pyReplace (' ' :: "x".data ++ [' '])
          (' ' :: VARIABLE ++ (Nat.repr 0).data ++ [' '])
          (("the x value".data).drop (3 + (' ' :: "x".data ++ [' ']).length)) ∧
    filterParamNames ("the x value".data) ["x".data] = "the VARIABLE0 value".data :=
  ⟨(c3_space_bounded_occurrence_substituted ("x".data) ("x is nice".data) 0).2.1
      (by decide),
   (c3_space_bounded_occurrence_substituted ("x".data) ("the x value".data) 0).2.2 3
      (by decide),
   by decide⟩

/-- C5 (counterexample): a text that contains the escape-placeholder pattern
but no `x.y.` abbreviation is not returned unchanged by escape-then-restore:
the restore pass rewrites the pre-existing placeholder. -/
theorem c5_placeholder_text_not_restored_identically :
    hasAbbrev ("STABLE_REDUCTION_a_b_".data) = false ∧
    unpackStableReduction (filterStableReduction ("STABLE_REDUCTION_a_b_".data)) =
      " a.b. ".data ∧
    " a.b. ".data ≠ "STABLE_REDUCTION_a_b_".data := by
  refine ⟨by decide, by decide, by decide⟩

/-- C5 (amended): on a text with no `x.y.` abbreviation pattern and no
occurrence of the `STABLE_REDUCTION` escape-placeholder pattern,
escape-then-restore returns the text unchanged. -/
theorem c5_escape_restore_identity (s : List Char)
    (h1 : hasAbbrev s = false) (h2 : hasPlaceholder s = false) :
    unpackStableReduction (filterStableReduction s) = s := by
  have e1 : findAbbrev s = none := by
    cases h : findAbbrev s
    · rfl
    · rw [hasAbbrev, h] at h1
      simp at h1
  have e2 : findPlaceholder s = none := by
    cases h : findPlaceholder s
    · rfl
    · rw [hasPlaceholder, h] at h2
      simp at h2
  have hesc : filterStableReduction s = s :=
    filterStableReductionGo_of_none (s.length + 1) s e1
  rw [hesc]
  exact unpackStableReductionGo_of_none (s.length + 1) s e2

/-- C5 (witness): the amended identity at a concrete input with neither
pattern. -/
theorem c5_escape_restore_identity_witness :
    hasAbbrev ("hello world".data) = false ∧
    hasPlaceholder ("hello world".data) = false ∧
    unpackStableReduction (filterStableReduction ("hello world".data)) =
      "hello world".data :=
  ⟨by decide, by decide, c5_escape_restore_identity ("hello world".data) (by decide) (by decide)⟩

/-- C10: `isKeyWord` is total — the loop never reaches the raising branch of
`diff`, because `diff` is only invoked when the keyword occurs at position
0, so the modelled computation always returns a value. -/
theorem c10_isKeyWord_total (s : List Char) :
    (Filter.isKeyWordOpt s).isSome = true ∧
    Filter.isKeyWord s = (Filter.isKeyWordOpt s).getD false :=
  ⟨isKeyWordGo_isSome s TAGS, rfl⟩

/-- C4: `Pool.map` preserves input order (position `i` of the mapped output
is the transformed record `i`, before filtering), and each surviving record
is flattened into exactly the ordered field pairs `head` (the transformed
summary, verbatim), `params`, `variables` and `results`, the latter three
joined with the ` NEXT ` separator. -/
theorem c4_orchestrator_order_and_flattening (methods : List Method)
    (filtrator : Method → Bool) (i : Nat) :
    (methods.map applyFiltersForMethod).get? i
      = (methods.get? i).map applyFiltersForMethod ∧
    applyFiltersForMethods methods filtrator =
      ((methods.map applyFiltersForMethod).filter filtrator).map (fun m =>
        [("head".data, m.javaDoc.head),
         ("params".data, List.intercalate (' ' :: NEXT ++ [' ']) m.javaDoc.params),
         ("variables".data, List.intercalate (' ' :: NEXT ++ [' ']) m.javaDoc.vars),
         ("results".data, List.intercalate (' ' :: NEXT ++ [' ']) m.javaDoc.results)]) :=
  ⟨get?_map_eq applyFiltersForMethod methods i, by simp [applyFiltersForMethods, join]⟩

/-- C6: `isKeyWord(word)` is true iff `word` starts (at position 0) with one
of the vocabulary keywords and the remaining suffix is empty or purely
numeric; in particular `VARIABLE3` and `VARIABLE` are keywords and
`VARIABLEX` is not. -/
theorem c6_isKeyWord_characterization :
    (∀ s, Filter.isKeyWord s = true ↔
      ∃ t ∈ TAGS, t.isPrefixOf s = true ∧
        (s.drop t.length = [] ∨ Filter.isNumericStr (s.drop t.length) = true)) ∧
    Filter.isKeyWord ("VARIABLE3".data) = true ∧
    Filter.isKeyWord ("VARIABLE".data) = true ∧
    Filter.isKeyWord ("VARIABLEX".data) = false := by
  refine ⟨?_, by decide, by decide, by decide⟩
  intro s
  rw [← isKeyWordGo_true_iff s TAGS]
  have hs := isKeyWordGo_isSome s TAGS
  unfold Filter.isKeyWord Filter.isKeyWordOpt
  cases hv : Filter.isKeyWordGo s TAGS with
  | none =>
    rw [hv] at hs
    simp at hs
  | some b => cases b <;> simp [hv]

/-- C9: every derived-variable entry written by `applyFiltersForMethod` is
the lowercase prefix `@variable<i> ` followed by the pipeline-filtered,
space-separated lowercase form of parameter `i`'s name, and that lowercase
prefix is not part of the uppercase placeholder-token vocabulary (no tag is
a prefix of it). -/
theorem c9_derived_variable_shape (m : Method) (i : Nat) :
    ((applyFiltersForMethod m).javaDoc.vars).get? i =
      (m.paramNames.get? i).map (fun name =>
        "@variable".data ++ (Nat.repr i).data ++ ' ' ::
          applyFiltersForString (pyReplace ['_'] [' '] (convert name)) m.paramNames) ∧
    TAGS.all
      (fun t => !(t.isPrefixOf ("@variable".data ++ (Nat.repr i).data))) = true := by
  constructor
  · have h := enumMap_get?
      (fun i name =>
        "@variable".data ++ (Nat.repr i).data ++ ' ' ::
          applyFiltersForString (pyReplace ['_'] [' '] (convert name)) m.paramNames)
      m.paramNames 0 i
    simpa [applyFiltersForMethod] using h
  · have h2 : ∀ t ∈ TAGS, t.head? ≠ some '@' := by decide
    have h3 : ∀ t ∈ TAGS, t ≠ [] := by decide
    rw [List.all_eq_true]
    intro t ht
    cases t with
    | nil => exact absurd rfl (h3 [] ht)
    | cons c ts =>
      have hc : c ≠ '@' := by
        intro he
        exact h2 (c :: ts) ht (by rw [he]; rfl)
      have he : ("@variable".data ++ (Nat.repr i).data)
          = '@' :: ("variable".data ++ (Nat.repr i).data) := rfl
      rw [he]
      simp [List.isPrefixOf, hc]

/-! ## Whitespace-normal-form lemmas (C7) -/

/-- The collapse loop in in-run state never emits a leading space. -/
theorem longSpacesGo_head (s : List Char) :
    (filterLongSpacesGo true s).head? ≠ some ' ' := by
  induction s with
  | nil => simp [filterLongSpacesGo]
  | cons c cs ih =>
    by_cases h : isPySpace c = true
    · simpa [filterLongSpacesGo, h] using ih
    · have hc : c ≠ ' ' := by
        intro he
        rw [he] at h
        exact h rfl
      simp [filterLongSpacesGo, h, hc]

/-- `noDouble` survives prepending onto a list with a non-space head. -/
theorem noDouble_cons_of_head (x : Char) (l : List Char)
    (h1 : l.head? ≠ some ' ') (h2 : noDouble l = true) :
    noDouble (x :: l) = true := by
  cases l with
  | nil => rfl
  | cons d ds =>
    have hd : d ≠ ' ' := by
      intro he
      exact h1 (by rw [he]; rfl)
    simp [noDouble, hd] at h2 ⊢
    exact h2

/-- `noDouble` survives prepending a non-space character. -/
theorem noDouble_cons_of_ne (x : Char) (l : List Char)
    (hx : x ≠ ' ') (h2 : noDouble l = true) :
    noDouble (x :: l) = true := by
  cases l with
  | nil => rfl
  | cons d ds =>
    simp [noDouble, hx] at h2 ⊢
    exact h2

/-- The collapse loop never produces two consecutive spaces. -/
theorem noDouble_longSpacesGo (s : List Char) :
    ∀ b, noDouble (filterLongSpacesGo b s) = true := by
  induction s with
  | nil => intro b; rfl
  | cons c cs ih =>
    intro b
    by_cases h : isPySpace c = true
    · cases b with
      | true => simpa [filterLongSpacesGo, h] using ih true
      | false =>
        simp only [filterLongSpacesGo, h, if_pos rfl]
        simp only [if_true]
        exact noDouble_cons_of_head ' ' _ (longSpacesGo_head cs) (ih true)
    · have hc : c ≠ ' ' := by
        intro he
        rw [he] at h
        exact h rfl
      simp only [filterLongSpacesGo, h, if_false]
      simp only [Bool.false_eq_true, if_false]
      exact noDouble_cons_of_ne c _ hc (ih false)

/-- Parts of `noDouble` on a two-or-more element list. -/
theorem noDouble_two (c1 c2 : Char) (rest : List Char)
    (h : noDouble (c1 :: c2 :: rest) = true) :
    (c1 = ' ' → c2 ≠ ' ') ∧ noDouble (c2 :: rest) = true := by
  simp [noDouble] at h
  refine ⟨fun h1 => ?_, h.2⟩
  rcases h.1 with hn | hn
  · exact absurd h1 hn
  · exact hn

/-- Build `noDouble` on a two-or-more element list. -/
theorem noDouble_cons₂_intro (c d : Char) (l : List Char)
    (h1 : c = ' ' → d ≠ ' ') (h2 : noDouble (d :: l) = true) :
    noDouble (c :: d :: l) = true := by
  have hb : (decide (c = ' ') && decide (d = ' ')) = false := by
    by_cases hc : c = ' '
    · simp [hc, h1 hc]
    · simp [hc]
  simp [noDouble, hb, h2]

/-- `noDouble` is preserved by dropping the last element. -/
theorem noDouble_dropLast : ∀ (l : List Char),
    noDouble l = true → noDouble l.dropLast = true := by
  intro l
  induction l with
  | nil => intro _; rfl
  | cons c cs ih =>
    intro h
    cases cs with
    | nil => rfl
    | cons d ds =>
      have h2 := noDouble_two c d ds h
      cases ds with
      | nil => rfl
      | cons e es =>
        have hd := ih h2.2
        rw [List.dropLast_cons₂] at hd
        rw [List.dropLast_cons₂, List.dropLast_cons₂]
        exact noDouble_cons₂_intro c d _ h2.1 hd

/-- Dropping the last element does not create a space head. -/
theorem head_dropLast_ne (l : List Char) (h : l.head? ≠ some ' ') :
    l.dropLast.head? ≠ some ' ' := by
  cases l with
  | nil => simp
  | cons c cs =>
    cases cs with
    | nil => simp
    | cons d ds =>
      rw [List.dropLast_cons₂]
      simpa using h

/-- In a `noDouble` list that ends in a space, dropping that space leaves a
last element that is not a space. -/
theorem getLast_dropLast_ne : ∀ (l : List Char),
    noDouble l = true → l.getLast? = some ' ' →
      l.dropLast.getLast? ≠ some ' ' := by
  intro l
  induction l with
  | nil => intro _ h; simp at h
  | cons c cs ih =>
    intro hnd hl
    cases cs with
    | nil => simp
    | cons d ds =>
      have h2 := noDouble_two c d ds hnd
      cases ds with
      | nil =>
        have hd : d = ' ' := by simpa using hl
        have hc : c ≠ ' ' := fun hc => h2.1 hc hd
        simpa using hc
      | cons e es =>
        have hl2 : (d :: e :: es).getLast? = some ' ' := by
          rw [List.getLast?_cons_cons] at hl
          exact hl
        have := ih h2.2 hl2
        rw [List.dropLast_cons₂]
        rw [List.dropLast_cons₂] at this ⊢
        intro hx
        apply this
        rw [List.getLast?_cons_cons] at hx
        exact hx

/-- C7: whitespace collapsing followed by the trim pass yields output with
no leading space, no trailing space, and no internal run of more than one
consecutive space. -/
theorem c7_collapse_trim_normal_form (s : List Char) :
    (filterFirstAndEndSpaces (filterLongSpaces s)).head? ≠ some ' ' ∧
    (filterFirstAndEndSpaces (filterLongSpaces s)).getLast? ≠ some ' ' ∧
    noDouble (filterFirstAndEndSpaces (filterLongSpaces s)) = true := by
  have hnd : noDouble (filterLongSpaces s) = true := noDouble_longSpacesGo s false
  rcases hl : filterLongSpaces s with _ | ⟨c, rest⟩
  · simp [filterFirstAndEndSpaces, noDouble]
  · rw [hl] at hnd
    -- stage 1: drop one leading space
    set s1 := if c = ' ' then rest else c :: rest with hs1
    have hhead : s1.head? ≠ some ' ' := by
      by_cases hc : c = ' '
      · rw [hs1, if_pos hc]
        cases rest with
        | nil => simp
        | cons d ds =>
          have h2 := noDouble_two c d ds hnd
          have hd : d ≠ ' ' := h2.1 hc
          simpa using hd
      · rw [hs1, if_neg hc]
        simpa using hc
    have hnd1 : noDouble s1 = true := by
      by_cases hc : c = ' '
      · rw [hs1, if_pos hc]
        cases rest with
        | nil => rfl
        | cons d ds => exact (noDouble_two c d ds hnd).2
      · rw [hs1, if_neg hc]
        exact hnd
    -- stage 2: drop one trailing space
    have hout : filterFirstAndEndSpaces (c :: rest)
        = if s1 = [] then s1
          else if s1.getLast? = some ' ' then s1.dropLast else s1 := rfl
    rw [hout]
    by_cases he : s1 = []
    · rw [if_pos he]
      rw [he]
      refine ⟨by simp, by simp, rfl⟩
    · rw [if_neg he]
      by_cases hlast : s1.getLast? = some ' '
      · rw [if_pos hlast]
        exact ⟨head_dropLast_ne s1 hhead,
          getLast_dropLast_ne s1 hnd1 hlast,
          noDouble_dropLast s1 hnd1⟩
      · rw [if_neg hlast]
        exact ⟨hhead, hlast, hnd1⟩

/-! ## Sentence-quality-filter lemmas (C8) -/

/-- The filter loop is the sentence splitter composed with the keep/reject
partition. -/
theorem fmsGo_eq (thr : ℚ) : ∀ (inp sent : List Char),
    filterMeaninglessSentencesGo thr sent inp =
      ((completedSentencesGo sent inp).filter (sentenceKeep thr),
       (completedSentencesGo sent inp).filter (fun t => !(sentenceKeep thr t))) := by
  intro inp
  induction inp with
  | nil => intro sent; rfl
  | cons c cs ih =>
    intro sent
    simp only [filterMeaninglessSentencesGo, completedSentencesGo]
    by_cases h : c = '.' ∧ (sent ++ [c]).length > 1
    · rw [if_pos h, if_pos h]
      by_cases hk : sentenceKeep thr (sent ++ [c]) = true
      · simp [List.filter_cons, hk, ih []]
      · simp only [Bool.not_eq_true] at hk
        simp [List.filter_cons, hk, ih []]
    · rw [if_neg h, if_neg h]
      exact ih (sent ++ [c])

/-- Every completed sentence ends with a period preceded by at least one
character. -/
theorem completedGo_shape : ∀ (inp sent : List Char),
    (completedSentencesGo sent inp).all
      (fun t => decide (t.getLast? = some '.') && decide (1 < t.length)) = true := by
  intro inp
  induction inp with
  | nil => intro sent; rfl
  | cons c cs ih =>
    intro sent
    simp only [completedSentencesGo]
    by_cases h : c = '.' ∧ (sent ++ [c]).length > 1
    · rw [if_pos h]
      rw [List.all_cons]
      have h1 : (sent ++ [c]).getLast? = some '.' := by
        rw [List.getLast?_concat, h.1]
      have h2 : 0 < sent.length := by simpa using h.2
      simp [h1, h2, ih []]
    · rw [if_neg h]
      exact ih (sent ++ [c])

/-- C8 (counterexample): with threshold 1/2, the sentence `ab ##.` has
meaningful-word ratio exactly 1/2 — at the threshold, so the claim's
"at or above" would retain it — yet the filter drops it (the source
compares with strict `>`), reporting it as rejected. -/
theorem c8_threshold_boundary_sentence_dropped :
    completedSentences ("ab ##.".data) = [("ab ##.".data)] ∧
    mkRat (Filter.wordsNumber (sentenceWords ("ab ##.".data)))
      (sentenceWords ("ab ##.".data)).length = mkRat 1 2 ∧
    sentenceKeep (mkRat 1 2) ("ab ##.".data) = false ∧
    filterMeaninglessSentences (mkRat 1 2) ("ab ##.".data) = [] ∧
    rejectedSentences (mkRat 1 2) ("ab ##.".data) = [("ab ##.".data)] := by
  refine ⟨by decide, by decide, by decide, by decide, by decide⟩

/-- C8 (amended): the quality filter splits the text into sentences at
literal period boundaries (each retained unit ends at a period preceded by
at least one character) and keeps exactly the sentences whose
meaningful-word ratio is strictly above the threshold; every other
completed sentence is reported as a rejected diagnostic. -/
theorem c8_quality_filter_strictly_above (thr : ℚ) (s : List Char) :
    filterMeaninglessSentences thr s =
      ((completedSentences s).filter (sentenceKeep thr)).flatten ∧
    rejectedSentences thr s =
      (completedSentences s).filter (fun t => !(sentenceKeep thr t)) ∧
    (completedSentences s).all
      (fun t => decide (t.getLast? = some '.') && decide (1 < t.length)) = true := by
  refine ⟨?_, ?_, completedGo_shape s []⟩
  · unfold filterMeaninglessSentences completedSentences
    rw [fmsGo_eq]
  · unfold rejectedSentences completedSentences
    rw [fmsGo_eq]

end DocAnalyser
